import Mathlib

/-!
Shallow embedding of the simplegeom core (src/include/simplegeom/algorithm.h,
common.h), specialized to planar (Cartesian) 2D points with coordinates
idealized as real numbers; the 3D branch of `closest_point` is embedded
alongside.  The Boost.Geometry primitives the core consumes
(point-to-point/point-to-segment distance and segment-box intersection) are
external collaborators and are modelled from the spec's stated contracts.
-/

namespace SimpleGeom

open scoped Classical

/-- Model of `simplegeom::Point2` (`bg::model::point<double, 2, cartesian>`):
an ordered pair of scalars, idealized as reals. -/
structure Point2 where
  x : ℝ
  y : ℝ

/-- Model of `simplegeom::Point3` (three coordinates). -/
structure Point3 where
  x : ℝ
  y : ℝ
  z : ℝ

/-- Model of `Segment<Point>` (`bg::model::segment`): a pair `(first, second)`. -/
abbrev Segment2 := Point2 × Point2

/-- Model of `Segment<Point>` for 3D points. -/
abbrev Segment3 := Point3 × Point3

/-- Model of `LineString<Point>` (`bg::model::linestring`): an ordered
sequence of points. -/
abbrev LineString2 := List Point2

/-- `enum class ProjectionMode { kSimple, kAccumulate }` from common.h. -/
inductive ProjectionMode
  | kSimple
  | kAccumulate
deriving DecidableEq

/-- Model of `Box<Point>` (`bg::model::box`): two corner points. -/
structure Box2 where
  min_corner : Point2
  max_corner : Point2

/-- `create_box(center_point, edge_length)` from algorithm.h, planar 2D
branch: the box spans `center ± edge_length` on each axis (no geographic
scaling for Cartesian points). -/
def create_box (center_point : Point2) (edge_length : ℝ) : Box2 :=
  ⟨⟨center_point.x - edge_length, center_point.y - edge_length⟩,
   ⟨center_point.x + edge_length, center_point.y + edge_length⟩⟩

/-- The point of a segment at parameter `t`, `a + t·(b - a)` per axis. -/
def seg_point (s : Segment2) (t : ℝ) : Point2 :=
  ⟨s.1.x + t * (s.2.x - s.1.x), s.1.y + t * (s.2.y - s.1.y)⟩

/-- The point of a 3D segment at parameter `t`. -/
def seg_point3 (s : Segment3) (t : ℝ) : Point3 :=
  ⟨s.1.x + t * (s.2.x - s.1.x), s.1.y + t * (s.2.y - s.1.y),
   s.1.z + t * (s.2.z - s.1.z)⟩

/-- A point lies in a closed axis-aligned box (both axes between the
corners). -/
def in_box (q : Point2) (b : Box2) : Prop :=
  b.min_corner.x ≤ q.x ∧ q.x ≤ b.max_corner.x ∧
  b.min_corner.y ≤ q.y ∧ q.y ≤ b.max_corner.y

/-- Modelled from the spec: `bg::intersects(segment, box)` is an external
collaborator, "true iff the segment has any point within the box (closed
region)". -/
def seg_intersects_box (s : Segment2) (b : Box2) : Prop :=
  ∃ t : ℝ, 0 ≤ t ∧ t ≤ 1 ∧ in_box (seg_point s t) b

/-- The unclamped projection parameter `t = (AP·AB) / (AB·AB)` computed by
`closest_point` (2D branch) before the NaN guard and the clamp. -/
noncomputable def proj_param (p : Point2) (seg : Segment2) : ℝ :=
  ((p.x - seg.1.x) * (seg.2.x - seg.1.x) + (p.y - seg.1.y) * (seg.2.y - seg.1.y)) /
  ((seg.2.x - seg.1.x) * (seg.2.x - seg.1.x) + (seg.2.y - seg.1.y) * (seg.2.y - seg.1.y))

/-- `closest_point(p, seg)` from algorithm.h, 2D branch.  Over exact reals
the parameter `t` is NaN exactly when the denominator `AB·AB` is 0 (the
numerator is then 0 as well), so `std::isnan(t)` is modelled by the test
`AB·AB = 0`; otherwise `t` is clamped to `[0, 1]` and the result is
`a + t·AB` per axis. -/
noncomputable def closest_point (p : Point2) (seg : Segment2) : Point2 :=
  let a := seg.1
  let b := seg.2
  let abx := b.x - a.x
  let aby := b.y - a.y
  let apx := p.x - a.x
  let apy := p.y - a.y
  let den := abx * abx + aby * aby
  let t0 := (apx * abx + apy * aby) / den
  let t := if den = 0 then 0 else max 0 (min 1 t0)
  ⟨a.x + t * abx, a.y + t * aby⟩

/-- The unclamped projection parameter of the 3D branch of `closest_point`. -/
noncomputable def proj_param3 (p : Point3) (seg : Segment3) : ℝ :=
  ((p.x - seg.1.x) * (seg.2.x - seg.1.x) + (p.y - seg.1.y) * (seg.2.y - seg.1.y) +
    (p.z - seg.1.z) * (seg.2.z - seg.1.z)) /
  ((seg.2.x - seg.1.x) * (seg.2.x - seg.1.x) + (seg.2.y - seg.1.y) * (seg.2.y - seg.1.y) +
    (seg.2.z - seg.1.z) * (seg.2.z - seg.1.z))

/-- `closest_point(p, seg)` from algorithm.h, 3D branch (`dim > 2`). -/
noncomputable def closest_point3 (p : Point3) (seg : Segment3) : Point3 :=
  let a := seg.1
  let b := seg.2
  let abx := b.x - a.x
  let aby := b.y - a.y
  let abz := b.z - a.z
  let apx := p.x - a.x
  let apy := p.y - a.y
  let apz := p.z - a.z
  let den := abx * abx + aby * aby + abz * abz
  let t0 := (apx * abx + apy * aby + apz * abz) / den
  let t := if den = 0 then 0 else max 0 (min 1 t0)
  ⟨a.x + t * abx, a.y + t * aby, a.z + t * abz⟩

/-- Modelled from the spec: `distance(p1, p2)` for planar points delegates to
`bg::distance`, the Euclidean distance (spec 4.2: "For planar points: compute
Euclidean distance"). -/
noncomputable def point_distance (p q : Point2) : ℝ :=
  Real.sqrt ((p.x - q.x) * (p.x - q.x) + (p.y - q.y) * (p.y - q.y))

/-- Modelled from the spec: the `distance(point, geometry)` overload for a
segment delegates to `bg::distance(point, segment)`, the "exact geometric
distance from `point` to `segment`" — the Euclidean distance from `p` to the
nearest point of the closed segment (the lemma
`segment_distance_le_seg_point` below shows this definition is that
minimum). -/
noncomputable def segment_distance (p : Point2) (s : Segment2) : ℝ :=
  point_distance p (closest_point p s)

/-- Helper naming the segment `(line.at(i), line.at(i+1))` the search reads
(out-of-range access modelled by a default, shown unreachable by the index
bound below). -/
def seg_at (line : LineString2) (i : ℕ) : Segment2 :=
  (line.getD i ⟨0, 0⟩, line.getD (i + 1) ⟨0, 0⟩)

/-- `kSearchBoxEdgeLength` from `distance(point, line, mode)`. -/
def kSearchBoxEdgeLength : ℝ := 2000

/-- One iteration of the pruning scan in `distance(point, line, mode)`:
state `st = (index, search_box_size)`; skip the segment when it misses the
probe box, otherwise shrink the box and remember the index when the doubled
exact distance beats the current box size. -/
noncomputable def search_step (point : Point2) (line : LineString2)
    (st : ℕ × ℝ) (i : ℕ) : ℕ × ℝ :=
  if ¬ seg_intersects_box (seg_at line i) (create_box point st.2) then st
  else if segment_distance point (seg_at line i) * 2 < st.2 then
    (i, segment_distance point (seg_at line i) * 2)
  else st

/-- The whole scan loop `for (i = 0; i < line.size() - 1; ++i)` of
`distance(point, line, mode)`, returning the final `(index,
search_box_size)`. -/
noncomputable def search_scan (point : Point2) (line : LineString2) : ℕ × ℝ :=
  (List.range (line.length - 1)).foldl (search_step point line) (0, kSearchBoxEdgeLength)

/-- The accumulation loop `for (i = 0; i < index; ++i) project_distance +=
distance(line.at(i), line.at(i+1))`. -/
noncomputable def accumulate_length (line : LineString2) (index : ℕ) : ℝ :=
  (List.range index).foldl
    (fun acc i => acc + point_distance (line.getD i ⟨0, 0⟩) (line.getD (i + 1) ⟨0, 0⟩)) 0

/-- `distance(point, line, mode)` from algorithm.h: the empty and
single-point guards, the pruning scan, the optional accumulation, and the
final pair `(bg::distance(point, seg), project_distance)`. -/
noncomputable def distance (point : Point2) (line : LineString2)
    (mode : ProjectionMode) : ℝ × ℝ :=
  if line.isEmpty then (-1, 0)
  else if line.length < 2 then (point_distance point (line.getD 0 ⟨0, 0⟩), 0)
  else
    let index := (search_scan point line).1
    let base := if mode = ProjectionMode.kAccumulate then accumulate_length line index else 0
    let seg := seg_at line index
    let closest := closest_point point seg
    (segment_distance point seg, base + point_distance seg.1 closest)

/-- The value `distance(p, L, mode).first` the claim compares against: the
minimum over all segments of the exact point-to-segment distance. -/
def is_min_segment_distance (point : Point2) (line : LineString2) (v : ℝ) : Prop :=
  (∃ i, i + 1 < line.length ∧ v = segment_distance point (seg_at line i)) ∧
  (∀ i, i + 1 < line.length → v ≤ segment_distance point (seg_at line i))

/-- A polyline lying entirely outside the initial 2000 search box around the
origin, whose nearest segment is its second one. -/
def c1Line : LineString2 := [⟨10000, 0⟩, ⟨10001, 0⟩, ⟨9000, 0⟩]

/-- The polyline of the spec's Accumulate scenario. -/
def c6Line : LineString2 := [⟨0, 0⟩, ⟨1, 1⟩, ⟨2, 2⟩]

/-- A closed square loop: its last vertex coincides with its first, so the
scan for a query at the last vertex wins at segment 0. -/
def c7Line : LineString2 := [⟨0, 0⟩, ⟨10, 0⟩, ⟨10, 10⟩, ⟨0, 10⟩, ⟨0, 0⟩]

/-! ### Basic facts about the distances and the projection -/

theorem point_distance_nonneg (p q : Point2) : 0 ≤ point_distance p q :=
  Real.sqrt_nonneg _

theorem point_distance_self (p : Point2) : point_distance p p = 0 := by
  simp [point_distance]

theorem segment_distance_nonneg (p : Point2) (s : Segment2) :
    0 ≤ segment_distance p s :=
  point_distance_nonneg _ _

/-- Evaluation helper: the Euclidean distance, given the squared distance. -/
theorem point_distance_eval (p q : Point2) (v : ℝ) (hv : 0 ≤ v)
    (h : (p.x - q.x) * (p.x - q.x) + (p.y - q.y) * (p.y - q.y) = v ^ 2) :
    point_distance p q = v := by
  rw [point_distance, h, Real.sqrt_sq hv]

/-! ### The clamped projection: `closest_point` -/

theorem Point2.ext_xy {p q : Point2} (hx : p.x = q.x) (hy : p.y = q.y) : p = q := by
  cases p
  cases q
  rw [Point2.mk.injEq]
  exact ⟨hx, hy⟩

theorem Point3.ext_xyz {p q : Point3} (hx : p.x = q.x) (hy : p.y = q.y)
    (hz : p.z = q.z) : p = q := by
  cases p
  cases q
  rw [Point3.mk.injEq]
  exact ⟨hx, hy, hz⟩

theorem seg_point_zero (s : Segment2) : seg_point s 0 = s.1 := by
  apply Point2.ext_xy <;> simp [seg_point]

theorem seg_point_one (s : Segment2) : seg_point s 1 = s.2 := by
  apply Point2.ext_xy <;> (simp only [seg_point]; ring)

theorem proj_param_mk (p a b : Point2) :
    proj_param p (a, b) =
      ((p.x - a.x) * (b.x - a.x) + (p.y - a.y) * (b.y - a.y)) /
      ((b.x - a.x) * (b.x - a.x) + (b.y - a.y) * (b.y - a.y)) := rfl

/-- The 2D `closest_point` written through the unclamped parameter: the
returned point is `a + t·AB` where `t` is 0 on a degenerate segment and the
clamped parameter otherwise. -/
theorem closest_point_def (p : Point2) (s : Segment2) :
    closest_point p s =
      seg_point s
        (if (s.2.x - s.1.x) * (s.2.x - s.1.x) + (s.2.y - s.1.y) * (s.2.y - s.1.y) = 0
         then 0 else max 0 (min 1 (proj_param p s))) := by
  simp only [closest_point, seg_point, proj_param]

/-- The clamped parameter used by `closest_point` lies in `[0, 1]`; hence the
result lies on the closed segment. -/
theorem closest_point_mem_seg (p : Point2) (s : Segment2) :
    ∃ t : ℝ, 0 ≤ t ∧ t ≤ 1 ∧ closest_point p s = seg_point s t := by
  rw [closest_point_def]
  refine ⟨_, ?_, ?_, rfl⟩
  · split
    · exact le_refl 0
    · exact le_max_left 0 _
  · split
    · exact zero_le_one
    · exact max_le zero_le_one (min_le_left 1 _)

/-- When the unclamped parameter is at most 0, `closest_point` returns the
segment's first endpoint. -/
theorem closest_point_of_nonpos (p : Point2) (s : Segment2)
    (h : proj_param p s ≤ 0) : closest_point p s = s.1 := by
  rw [closest_point_def]
  have hteq : (if (s.2.x - s.1.x) * (s.2.x - s.1.x) + (s.2.y - s.1.y) * (s.2.y - s.1.y) = 0
      then (0 : ℝ) else max 0 (min 1 (proj_param p s))) = 0 := by
    split
    · rfl
    · rw [min_eq_right (le_trans h zero_le_one), max_eq_left h]
  rw [hteq]
  simp [seg_point]

/-- When the unclamped parameter is at least 1, `closest_point` returns the
segment's second endpoint. -/
theorem closest_point_of_one_le (p : Point2) (s : Segment2)
    (h : 1 ≤ proj_param p s) : closest_point p s = s.2 := by
  rw [closest_point_def]
  have hden : (s.2.x - s.1.x) * (s.2.x - s.1.x) + (s.2.y - s.1.y) * (s.2.y - s.1.y) ≠ 0 := by
    intro h0
    rw [proj_param, h0, div_zero] at h
    exact absurd h (by norm_num)
  rw [if_neg hden, min_eq_left h, max_eq_right zero_le_one]
  exact seg_point_one s

/-- A degenerate segment (`a == b`) makes `closest_point` return `a`: the
`t = NaN` case is replaced by `t = 0`. -/
theorem closest_point_degenerate (p : Point2) (a : Point2) :
    closest_point p (a, a) = a := by
  rw [closest_point_def]
  have : (a.x - a.x) * (a.x - a.x) + (a.y - a.y) * (a.y - a.y) = 0 := by ring
  rw [if_pos this]
  simp [seg_point]

/-- Querying at the segment's first endpoint projects to that endpoint. -/
theorem closest_point_fst (a b : Point2) : closest_point a (a, b) = a := by
  apply closest_point_of_nonpos
  rw [proj_param_mk]
  have : (a.x - a.x) * (b.x - a.x) + (a.y - a.y) * (b.y - a.y) = 0 := by ring
  rw [this, zero_div]

/-- Querying at the segment's second endpoint projects to that endpoint. -/
theorem closest_point_snd (a b : Point2) : closest_point b (a, b) = b := by
  rcases eq_or_ne ((b.x - a.x) * (b.x - a.x) + (b.y - a.y) * (b.y - a.y)) 0 with h | h
  · have hx : b.x = a.x := by
      have hx2 : (b.x - a.x) * (b.x - a.x) = 0 := by
        nlinarith [mul_self_nonneg (b.x - a.x), mul_self_nonneg (b.y - a.y)]
      have := mul_self_eq_zero.mp hx2
      linarith
    have hy : b.y = a.y := by
      have hy2 : (b.y - a.y) * (b.y - a.y) = 0 := by
        nlinarith [mul_self_nonneg (b.x - a.x), mul_self_nonneg (b.y - a.y)]
      have := mul_self_eq_zero.mp hy2
      linarith
    rw [closest_point_def, if_pos h, seg_point_zero]
    exact Point2.ext_xy hx.symm hy.symm
  · apply closest_point_of_one_le
    rw [proj_param_mk]
    rw [div_self h]

theorem segment_distance_fst (a b : Point2) : segment_distance a (a, b) = 0 := by
  rw [segment_distance, closest_point_fst, point_distance_self]

theorem segment_distance_snd (a b : Point2) : segment_distance b (a, b) = 0 := by
  rw [segment_distance, closest_point_snd, point_distance_self]

/-! ### `segment_distance` is the exact (minimal) point-to-segment distance -/

/-- The squared distance from `p` to the point of `s` at parameter `u`,
as a quadratic in `u`. -/
theorem sq_dist_seg_point (p : Point2) (s : Segment2) (u : ℝ) :
    (p.x - (seg_point s u).x) * (p.x - (seg_point s u).x) +
      (p.y - (seg_point s u).y) * (p.y - (seg_point s u).y) =
    ((p.x - s.1.x) * (p.x - s.1.x) + (p.y - s.1.y) * (p.y - s.1.y)) -
      2 * u * ((p.x - s.1.x) * (s.2.x - s.1.x) + (p.y - s.1.y) * (s.2.y - s.1.y)) +
      u * u * ((s.2.x - s.1.x) * (s.2.x - s.1.x) + (s.2.y - s.1.y) * (s.2.y - s.1.y)) := by
  simp only [seg_point]
  ring

/-- Clamping `num / den` to `[0, 1]` minimizes the quadratic
`c - 2 v num + v² den` over `v ∈ [0, 1]` (with the degenerate `den = 0`
case forced to have `num = 0` as well, as happens for the projection). -/
theorem clamp_min_quadratic (c num den u t : ℝ) (hden : 0 ≤ den)
    (hu0 : 0 ≤ u) (hu1 : u ≤ 1)
    (ht : t = if den = 0 then 0 else max 0 (min 1 (num / den)))
    (hdn : den = 0 → num = 0) :
    c - 2 * t * num + t * t * den ≤ c - 2 * u * num + u * u * den := by
  rcases eq_or_ne den 0 with h0 | h0
  · rw [h0, hdn h0]
    nlinarith
  · have hdpos : 0 < den := lt_of_le_of_ne hden (Ne.symm h0)
    rw [if_neg h0] at ht
    have key : (t - num / den) * (t - num / den) ≤ (u - num / den) * (u - num / den) := by
      rcases le_or_lt (num / den) 0 with hc | hc
      · have htv : t = 0 := by
          rw [ht, min_eq_right (le_trans hc zero_le_one), max_eq_left hc]
        rw [htv]
        nlinarith
      · rcases le_or_lt 1 (num / den) with hc1 | hc1
        · have htv : t = 1 := by
            rw [ht, min_eq_left hc1, max_eq_right zero_le_one]
          rw [htv]
          nlinarith
        · have htv : t = num / den := by
            rw [ht, min_eq_right (le_of_lt hc1), max_eq_right (le_of_lt hc)]
          rw [htv]
          nlinarith [mul_self_nonneg (u - num / den)]
    have expand : ∀ v : ℝ,
        c - 2 * v * num + v * v * den =
          den * ((v - num / den) * (v - num / den)) + (c - num * (num / den)) := by
      intro v
      field_simp
      ring
    rw [expand t, expand u]
    have := mul_le_mul_of_nonneg_left key (le_of_lt hdpos)
    linarith

/-- `closest_point` really is the closest point of the closed segment:
the distance it realizes is a lower bound on the distance to every point of
the segment.  This justifies reading `segment_distance` as the exact
point-to-segment distance. -/
theorem segment_distance_le_seg_point (p : Point2) (s : Segment2) (u : ℝ)
    (hu0 : 0 ≤ u) (hu1 : u ≤ 1) :
    segment_distance p s ≤ point_distance p (seg_point s u) := by
  have hden0 : 0 ≤ (s.2.x - s.1.x) * (s.2.x - s.1.x) + (s.2.y - s.1.y) * (s.2.y - s.1.y) :=
    add_nonneg (mul_self_nonneg _) (mul_self_nonneg _)
  have hdn : (s.2.x - s.1.x) * (s.2.x - s.1.x) + (s.2.y - s.1.y) * (s.2.y - s.1.y) = 0 →
      (p.x - s.1.x) * (s.2.x - s.1.x) + (p.y - s.1.y) * (s.2.y - s.1.y) = 0 := by
    intro h0
    have hax : s.2.x - s.1.x = 0 := by
      have : (s.2.x - s.1.x) * (s.2.x - s.1.x) = 0 := by
        nlinarith [mul_self_nonneg (s.2.x - s.1.x), mul_self_nonneg (s.2.y - s.1.y)]
      exact mul_self_eq_zero.mp this
    have hay : s.2.y - s.1.y = 0 := by
      have : (s.2.y - s.1.y) * (s.2.y - s.1.y) = 0 := by
        nlinarith [mul_self_nonneg (s.2.x - s.1.x), mul_self_nonneg (s.2.y - s.1.y)]
      exact mul_self_eq_zero.mp this
    rw [hax, hay]
    ring
  rw [segment_distance, closest_point_def, point_distance, point_distance]
  apply Real.sqrt_le_sqrt
  rw [sq_dist_seg_point, sq_dist_seg_point]
  exact clamp_min_quadratic _ _ _ u _ hden0 hu0 hu1 rfl hdn

/-! ### The prune never skips a segment within the current box size -/

theorem kSearchBoxEdgeLength_eq : kSearchBoxEdgeLength = 2000 := rfl

/-- The coordinates of a point differ from those of another point by at most
their Euclidean distance. -/
theorem abs_sub_le_point_distance (p q : Point2) :
    |q.x - p.x| ≤ point_distance p q ∧ |q.y - p.y| ≤ point_distance p q := by
  constructor
  · rw [point_distance, ← Real.sqrt_mul_self (abs_nonneg (q.x - p.x))]
    apply Real.sqrt_le_sqrt
    rw [abs_mul_abs_self]
    nlinarith [mul_self_nonneg (p.y - q.y)]
  · rw [point_distance, ← Real.sqrt_mul_self (abs_nonneg (q.y - p.y))]
    apply Real.sqrt_le_sqrt
    rw [abs_mul_abs_self]
    nlinarith [mul_self_nonneg (p.x - q.x)]

/-- Conservativeness of the probe: a segment within distance `h` of `point`
intersects the box of half-width `h` centered at `point` (the prune can only
skip segments farther than the current box size). -/
theorem seg_intersects_box_of_close (point : Point2) (s : Segment2) (h : ℝ)
    (hd : segment_distance point s ≤ h) :
    seg_intersects_box s (create_box point h) := by
  obtain ⟨t, ht0, ht1, hcp⟩ := closest_point_mem_seg point s
  refine ⟨t, ht0, ht1, ?_⟩
  rw [← hcp]
  obtain ⟨hdx, hdy⟩ := abs_sub_le_point_distance point (closest_point point s)
  rw [← segment_distance] at hdx hdy
  have hx := abs_le.mp (le_trans hdx hd)
  have hy := abs_le.mp (le_trans hdy hd)
  refine ⟨?_, ?_, ?_, ?_⟩ <;> (simp only [create_box]; linarith [hx.1, hx.2, hy.1, hy.2])

/-! ### The scan loop: step lemmas and the search invariant -/

/-- A scan step with a doubled distance at least the current box size leaves
the state unchanged (either the probe box test already skips the segment, or
the shrink condition fails). -/
theorem search_step_of_not_lt (point : Point2) (line : LineString2)
    (st : ℕ × ℝ) (i : ℕ)
    (h : ¬ segment_distance point (seg_at line i) * 2 < st.2) :
    search_step point line st i = st := by
  rw [search_step]
  by_cases hb : seg_intersects_box (seg_at line i) (create_box point st.2)
  · rw [if_neg (not_not_intro hb), if_neg h]
  · rw [if_pos hb]

/-- A scan step with a doubled distance below the current box size updates
the state: the segment cannot have been skipped, because a segment within
the box size intersects the probe box. -/
theorem search_step_of_lt (point : Point2) (line : LineString2)
    (st : ℕ × ℝ) (i : ℕ)
    (h : segment_distance point (seg_at line i) * 2 < st.2) :
    search_step point line st i = (i, segment_distance point (seg_at line i) * 2) := by
  have hd0 : 0 ≤ segment_distance point (seg_at line i) := segment_distance_nonneg _ _
  have hclose : segment_distance point (seg_at line i) ≤ st.2 := by linarith
  have hb := seg_intersects_box_of_close point (seg_at line i) st.2 hclose
  rw [search_step, if_neg (not_not_intro hb), if_pos h]

/-- Invariant of the pruning scan after the first `i` iterations: either no
segment so far was within 1000 of the query (the doubled distance never beat
the initial 2000 box) and the state is untouched, or the state records the
first segment attaining the minimum distance seen so far, with the box shrunk
to twice that distance. -/
theorem scan_inv (point : Point2) (line : LineString2) (i : ℕ) :
    ((List.range i).foldl (search_step point line) (0, kSearchBoxEdgeLength) =
        (0, kSearchBoxEdgeLength) ∧
      ∀ j, j < i → 1000 ≤ segment_distance point (seg_at line j)) ∨
    (∃ k, k < i ∧
      (List.range i).foldl (search_step point line) (0, kSearchBoxEdgeLength) =
        (k, 2 * segment_distance point (seg_at line k)) ∧
      segment_distance point (seg_at line k) < 1000 ∧
      (∀ j, j < i →
        segment_distance point (seg_at line k) ≤ segment_distance point (seg_at line j)) ∧
      (∀ j, j < k →
        segment_distance point (seg_at line k) < segment_distance point (seg_at line j))) := by
  induction i with
  | zero =>
    left
    constructor
    · simp
    · intro j hj
      exact absurd hj (Nat.not_lt_zero j)
  | succ n ih =>
    rw [List.range_succ, List.foldl_append, List.foldl_cons, List.foldl_nil]
    rcases ih with ⟨hst, hfar⟩ | ⟨k, hk, hst, hdk, hmin, hfirst⟩
    · rw [hst]
      by_cases hd : segment_distance point (seg_at line n) < 1000
      · right
        refine ⟨n, Nat.lt_succ_self n, ?_, hd, ?_, ?_⟩
        · rw [search_step_of_lt point line _ n
            (by rw [kSearchBoxEdgeLength_eq]; dsimp only; linarith)]
          rw [mul_comm]
        · intro j hj
          rcases Nat.lt_succ_iff_lt_or_eq.mp hj with hj' | hj'
          · linarith [hfar j hj']
          · rw [hj']
        · intro j hj
          linarith [hfar j hj]
      · left
        push_neg at hd
        rw [search_step_of_not_lt point line _ n
          (by rw [kSearchBoxEdgeLength_eq]; dsimp only; push_neg; linarith)]
        refine ⟨rfl, ?_⟩
        intro j hj
        rcases Nat.lt_succ_iff_lt_or_eq.mp hj with hj' | hj'
        · exact hfar j hj'
        · rw [hj']
          exact hd
    · rw [hst]
      by_cases hd : segment_distance point (seg_at line n) <
          segment_distance point (seg_at line k)
      · right
        refine ⟨n, Nat.lt_succ_self n, ?_, by linarith, ?_, ?_⟩
        · rw [search_step_of_lt point line _ n (by dsimp only; linarith)]
          rw [mul_comm]
        · intro j hj
          rcases Nat.lt_succ_iff_lt_or_eq.mp hj with hj' | hj'
          · linarith [hmin j hj']
          · rw [hj']
        · intro j hj
          linarith [hmin j hj]
      · right
        push_neg at hd
        rw [search_step_of_not_lt point line _ n (by dsimp only; push_neg; linarith)]
        refine ⟨k, lt_trans hk (Nat.lt_succ_self n), rfl, hdk, ?_, hfirst⟩
        intro j hj
        rcases Nat.lt_succ_iff_lt_or_eq.mp hj with hj' | hj'
        · exact hmin j hj'
        · rw [hj']
          exact hd

/-- The scan's final index stays strictly below the number of segments. -/
theorem search_scan_index_lt (point : Point2) (line : LineString2)
    (h2 : 2 ≤ line.length) :
    (search_scan point line).1 + 1 < line.length := by
  rcases scan_inv point line (line.length - 1) with ⟨hst, _⟩ | ⟨k, hk, hst, _⟩
  · rw [search_scan, hst]
    omega
  · rw [search_scan, hst]
    dsimp only
    omega

/-- When some segment is within 1000 of the query (half the initial search
box), the scan lands on the first segment attaining the minimum distance. -/
theorem search_scan_spec (point : Point2) (line : LineString2)
    (hnear : ∃ i, i + 1 < line.length ∧ segment_distance point (seg_at line i) < 1000) :
    (search_scan point line).1 + 1 < line.length ∧
    (∀ j, j + 1 < line.length →
      segment_distance point (seg_at line (search_scan point line).1) ≤
        segment_distance point (seg_at line j)) ∧
    (∀ j, j < (search_scan point line).1 →
      segment_distance point (seg_at line (search_scan point line).1) <
        segment_distance point (seg_at line j)) := by
  obtain ⟨i, hi, hdi⟩ := hnear
  rcases scan_inv point line (line.length - 1) with ⟨_, hfar⟩ | ⟨k, hk, hst, _, hmin, hfirst⟩
  · exact absurd hdi (not_lt.mpr (hfar i (by omega)))
  · rw [search_scan, hst]
    dsimp only
    refine ⟨by omega, ?_, hfirst⟩
    intro j hj
    exact hmin j (by omega)

/-- Unfolding of `distance(point, line, mode)` on a polyline with at least
two points. -/
theorem distance_eval (point : Point2) (line : LineString2) (mode : ProjectionMode)
    (h2 : 2 ≤ line.length) :
    distance point line mode =
      (segment_distance point (seg_at line (search_scan point line).1),
       (if mode = ProjectionMode.kAccumulate
        then accumulate_length line (search_scan point line).1 else 0) +
         point_distance (seg_at line (search_scan point line).1).1
           (closest_point point (seg_at line (search_scan point line).1))) := by
  have hne : ¬ line.isEmpty := by
    cases line with
    | nil => simp at h2
    | cons a l => simp [List.isEmpty]
  have hlen : ¬ line.length < 2 := not_lt.mpr h2
  rw [distance, if_neg hne, if_neg hlen]

theorem accumulate_length_zero (line : LineString2) : accumulate_length line 0 = 0 := by
  simp [accumulate_length]

theorem accumulate_length_succ (line : LineString2) (k : ℕ) :
    accumulate_length line (k + 1) =
      accumulate_length line k +
        point_distance (line.getD k ⟨0, 0⟩) (line.getD (k + 1) ⟨0, 0⟩) := by
  rw [accumulate_length, accumulate_length, List.range_succ, List.foldl_append,
    List.foldl_cons, List.foldl_nil]

theorem accumulate_length_nonneg (line : LineString2) (k : ℕ) :
    0 ≤ accumulate_length line k := by
  induction k with
  | zero => rw [accumulate_length_zero]
  | succ n ih =>
    rw [accumulate_length_succ]
    have := point_distance_nonneg (line.getD n ⟨0, 0⟩) (line.getD (n + 1) ⟨0, 0⟩)
    linarith

theorem accumulate_length_mono (line : LineString2) (k m : ℕ) (hkm : k ≤ m) :
    accumulate_length line k ≤ accumulate_length line m := by
  induction m with
  | zero =>
    rw [Nat.le_zero.mp hkm]
  | succ n ih =>
    by_cases h : k ≤ n
    · rw [accumulate_length_succ]
      have hd := point_distance_nonneg (line.getD n ⟨0, 0⟩) (line.getD (n + 1) ⟨0, 0⟩)
      have := ih h
      linarith
    · have : k = n + 1 := by omega
      rw [this]

/-! ### The 3D branch of `closest_point` -/

theorem seg_point3_one (s : Segment3) : seg_point3 s 1 = s.2 := by
  apply Point3.ext_xyz <;> (simp only [seg_point3]; ring)

/-- The 3D `closest_point` written through the unclamped parameter. -/
theorem closest_point3_def (p : Point3) (s : Segment3) :
    closest_point3 p s =
      seg_point3 s
        (if (s.2.x - s.1.x) * (s.2.x - s.1.x) + (s.2.y - s.1.y) * (s.2.y - s.1.y) +
            (s.2.z - s.1.z) * (s.2.z - s.1.z) = 0
         then 0 else max 0 (min 1 (proj_param3 p s))) := by
  simp only [closest_point3, seg_point3, proj_param3]

theorem closest_point3_mem_seg (p : Point3) (s : Segment3) :
    ∃ t : ℝ, 0 ≤ t ∧ t ≤ 1 ∧ closest_point3 p s = seg_point3 s t := by
  rw [closest_point3_def]
  refine ⟨_, ?_, ?_, rfl⟩
  · split
    · exact le_refl 0
    · exact le_max_left 0 _
  · split
    · exact zero_le_one
    · exact max_le zero_le_one (min_le_left 1 _)

theorem closest_point3_of_nonpos (p : Point3) (s : Segment3)
    (h : proj_param3 p s ≤ 0) : closest_point3 p s = s.1 := by
  rw [closest_point3_def]
  have hteq : (if (s.2.x - s.1.x) * (s.2.x - s.1.x) + (s.2.y - s.1.y) * (s.2.y - s.1.y) +
      (s.2.z - s.1.z) * (s.2.z - s.1.z) = 0
      then (0 : ℝ) else max 0 (min 1 (proj_param3 p s))) = 0 := by
    split
    · rfl
    · rw [min_eq_right (le_trans h zero_le_one), max_eq_left h]
  rw [hteq]
  apply Point3.ext_xyz <;> simp [seg_point3]

theorem closest_point3_of_one_le (p : Point3) (s : Segment3)
    (h : 1 ≤ proj_param3 p s) : closest_point3 p s = s.2 := by
  rw [closest_point3_def]
  have hden : (s.2.x - s.1.x) * (s.2.x - s.1.x) + (s.2.y - s.1.y) * (s.2.y - s.1.y) +
      (s.2.z - s.1.z) * (s.2.z - s.1.z) ≠ 0 := by
    intro h0
    rw [proj_param3, h0, div_zero] at h
    exact absurd h (by norm_num)
  rw [if_neg hden, min_eq_left h, max_eq_right zero_le_one]
  exact seg_point3_one s

/-! ### Claim theorems -/

/-- C2: `closest_point(p, (a,b))` lies on the closed segment — it equals
`a + t·(b-a)` for some `t ∈ [0,1]` — and it equals `a` when the unclamped
projection parameter is at most 0 and `b` when it is at least 1, in both the
2D and the 3D branch.  (Over the exact-real model the result trivially has
finite coordinates, which is the content of the no-NaN/Inf clause.) -/
theorem closest_point_on_segment (p a b : Point2) (q c d : Point3) :
    (∃ t : ℝ, 0 ≤ t ∧ t ≤ 1 ∧ closest_point p (a, b) = seg_point (a, b) t) ∧
    (proj_param p (a, b) ≤ 0 → closest_point p (a, b) = a) ∧
    (1 ≤ proj_param p (a, b) → closest_point p (a, b) = b) ∧
    (∃ t : ℝ, 0 ≤ t ∧ t ≤ 1 ∧ closest_point3 q (c, d) = seg_point3 (c, d) t) ∧
    (proj_param3 q (c, d) ≤ 0 → closest_point3 q (c, d) = c) ∧
    (1 ≤ proj_param3 q (c, d) → closest_point3 q (c, d) = d) :=
  ⟨closest_point_mem_seg p (a, b),
   closest_point_of_nonpos p (a, b),
   closest_point_of_one_le p (a, b),
   closest_point3_mem_seg q (c, d),
   closest_point3_of_nonpos q (c, d),
   closest_point3_of_one_le q (c, d)⟩

/-- C3: on an empty polyline, `distance(p, L, mode)` returns exactly
`(-1, 0)` for every query point and mode. -/
theorem distance_empty (p : Point2) (mode : ProjectionMode) :
    distance p [] mode = (-1, 0) := by
  rw [distance, if_pos (by rfl)]

/-- C4: on a single-point polyline `[P]`, `distance(p, L, mode)` returns
`(distance(p, P), 0)` for every query point and mode, with the point-to-point
distance of the (planar) strategy. -/
theorem distance_single (p P : Point2) (mode : ProjectionMode) :
    distance p [P] mode = (point_distance p P, 0) := by
  rw [distance, if_neg (by simp [List.isEmpty]), if_pos (by simp)]
  simp [List.getD]

/-- C5: on a degenerate segment `(a, a)` the division-by-zero case of the
projection parameter is replaced by `t = 0`, so `closest_point(p, (a,a)) = a`
for every `p`; concretely, for the segment `((0,0),(0,0))` and query `(3,4)`
the closest point is `(0,0)` and the point-to-segment distance is 5. -/
theorem closest_point_degenerate_segment :
    (∀ p a : Point2, closest_point p (a, a) = a) ∧
    closest_point ⟨3, 4⟩ ((⟨0, 0⟩ : Point2), (⟨0, 0⟩ : Point2)) = ⟨0, 0⟩ ∧
    segment_distance ⟨3, 4⟩ ((⟨0, 0⟩ : Point2), (⟨0, 0⟩ : Point2)) = 5 := by
  refine ⟨closest_point_degenerate, closest_point_degenerate _ _, ?_⟩
  rw [segment_distance, closest_point_degenerate]
  apply point_distance_eval _ _ 5 (by norm_num)
  norm_num

/-- C8: the projection mode only influences the second component: the first
component (the nearest distance) of `distance(p, L, mode)` is the same for
`kSimple` and `kAccumulate`, on every polyline. -/
theorem distance_fst_mode_independent (p : Point2) (line : LineString2) :
    (distance p line ProjectionMode.kSimple).1 =
      (distance p line ProjectionMode.kAccumulate).1 := by
  by_cases h0 : line.isEmpty
  · rw [distance, distance, if_pos h0, if_pos h0]
  · by_cases h1 : line.length < 2
    · rw [distance, distance, if_neg h0, if_neg h0, if_pos h1, if_pos h1]
    · rw [distance_eval p line ProjectionMode.kSimple (not_lt.mp h1),
        distance_eval p line ProjectionMode.kAccumulate (not_lt.mp h1)]

/-- C9: on a polyline with at least two points, the segment index chosen by
the scan satisfies `index ≤ L.size() - 2`, so the accesses `line.at(index)`
and `line.at(index + 1)` after the scan (and all loop accesses) are within
bounds. -/
theorem search_index_in_bounds (p : Point2) (line : LineString2)
    (h2 : 2 ≤ line.length) :
    (search_scan p line).1 + 2 ≤ line.length := by
  have := search_scan_index_lt p line h2
  omega

/-- Witness for C9 at a concrete two-point polyline. -/
theorem search_index_in_bounds_witness :
    (search_scan ⟨0, 0⟩ [⟨0, 0⟩, ⟨1, 0⟩]).1 + 2 ≤
      ([⟨0, 0⟩, ⟨1, 0⟩] : LineString2).length :=
  search_index_in_bounds ⟨0, 0⟩ [⟨0, 0⟩, ⟨1, 0⟩] (by simp)

/-- C10: the second component (the projection distance) of
`distance(p, L, mode)` is non-negative for every polyline (including empty
and single-point ones), query point and mode. -/
theorem distance_proj_nonneg (p : Point2) (line : LineString2)
    (mode : ProjectionMode) : 0 ≤ (distance p line mode).2 := by
  by_cases h0 : line.isEmpty
  · rw [distance, if_pos h0]
  · by_cases h1 : line.length < 2
    · rw [distance, if_neg h0, if_pos h1]
    · rw [distance_eval p line mode (not_lt.mp h1)]
      dsimp only
      have hbase : 0 ≤ (if mode = ProjectionMode.kAccumulate
          then accumulate_length line (search_scan p line).1 else 0) := by
        split
        · exact accumulate_length_nonneg _ _
        · exact le_refl 0
      have hd := point_distance_nonneg (seg_at line (search_scan p line).1).1
        (closest_point p (seg_at line (search_scan p line).1))
      linarith

/-- C1 (amended): for every polyline with at least two points, every query
point and every mode, the first component of `distance(p, L, mode)` is
non-negative; and provided some segment of `L` is within 1000 of `p` (half
the initial 2000 search box, so the prune can engage), it equals the minimum
over all segments of the exact point-to-segment distance. -/
theorem distance_fst_min_of_near (point : Point2) (line : LineString2)
    (mode : ProjectionMode) (h2 : 2 ≤ line.length)
    (hnear : ∃ i, i + 1 < line.length ∧ segment_distance point (seg_at line i) < 1000) :
    0 ≤ (distance point line mode).1 ∧
    is_min_segment_distance point line (distance point line mode).1 := by
  rw [distance_eval point line mode h2]
  dsimp only
  obtain ⟨hidx, hmin, _⟩ := search_scan_spec point line hnear
  exact ⟨segment_distance_nonneg _ _, ⟨_, hidx, rfl⟩, hmin⟩

/-- Witness for C1 (amended) at a concrete two-point polyline through the
query point. -/
theorem distance_fst_min_of_near_witness :
    0 ≤ (distance ⟨0, 0⟩ [⟨0, 0⟩, ⟨1, 0⟩] ProjectionMode.kSimple).1 ∧
    is_min_segment_distance ⟨0, 0⟩ [⟨0, 0⟩, ⟨1, 0⟩]
      (distance ⟨0, 0⟩ [⟨0, 0⟩, ⟨1, 0⟩] ProjectionMode.kSimple).1 :=
  distance_fst_min_of_near ⟨0, 0⟩ [⟨0, 0⟩, ⟨1, 0⟩] ProjectionMode.kSimple (by simp)
    ⟨0, by simp,
      by
        rw [show seg_at [⟨0, 0⟩, ⟨1, 0⟩] 0 = ((⟨0, 0⟩ : Point2), (⟨1, 0⟩ : Point2)) from rfl,
          segment_distance_fst]
        norm_num⟩

theorem c1_d0 : segment_distance ⟨0, 0⟩ (seg_at c1Line 0) = 10000 := by
  have hseg : seg_at c1Line 0 = ((⟨10000, 0⟩ : Point2), (⟨10001, 0⟩ : Point2)) := rfl
  have hle : proj_param ⟨0, 0⟩ ((⟨10000, 0⟩ : Point2), (⟨10001, 0⟩ : Point2)) ≤ 0 := by
    rw [proj_param_mk]
    rw [div_nonpos_iff]
    right
    constructor <;> norm_num
  rw [hseg, segment_distance, closest_point_of_nonpos _ _ hle]
  exact point_distance_eval _ _ 10000 (by norm_num) (by norm_num)

theorem c1_d1 : segment_distance ⟨0, 0⟩ (seg_at c1Line 1) = 9000 := by
  have hseg : seg_at c1Line 1 = ((⟨10001, 0⟩ : Point2), (⟨9000, 0⟩ : Point2)) := rfl
  have hle : 1 ≤ proj_param ⟨0, 0⟩ ((⟨10001, 0⟩ : Point2), (⟨9000, 0⟩ : Point2)) := by
    rw [proj_param_mk, le_div_iff₀ (by norm_num)]
    norm_num
  rw [hseg, segment_distance, closest_point_of_one_le _ _ hle]
  exact point_distance_eval _ _ 9000 (by norm_num) (by norm_num)

theorem c1_scan : search_scan ⟨0, 0⟩ c1Line = (0, kSearchBoxEdgeLength) := by
  have hs0 : search_step ⟨0, 0⟩ c1Line (0, kSearchBoxEdgeLength) 0 =
      (0, kSearchBoxEdgeLength) := by
    apply search_step_of_not_lt
    dsimp only
    rw [c1_d0, kSearchBoxEdgeLength_eq]
    norm_num
  have hs1 : search_step ⟨0, 0⟩ c1Line (0, kSearchBoxEdgeLength) 1 =
      (0, kSearchBoxEdgeLength) := by
    apply search_step_of_not_lt
    dsimp only
    rw [c1_d1, kSearchBoxEdgeLength_eq]
    norm_num
  rw [search_scan, show c1Line.length - 1 = 2 from rfl,
    show List.range 2 = [0, 1] from rfl, List.foldl_cons, List.foldl_cons, List.foldl_nil,
    hs0, hs1]

/-- C1 counterexample: on a polyline lying wholly outside the initial 2000
search box, every probe misses, the index stays 0, and the returned distance
is the distance to segment 0 (10000) although segment 1 is nearer (9000):
the first component is not the minimum over all segments. -/
theorem distance_fst_not_min_cex :
    ¬ (0 ≤ (distance ⟨0, 0⟩ c1Line ProjectionMode.kSimple).1 ∧
        is_min_segment_distance ⟨0, 0⟩ c1Line
          (distance ⟨0, 0⟩ c1Line ProjectionMode.kSimple).1) := by
  have hfst : (distance ⟨0, 0⟩ c1Line ProjectionMode.kSimple).1 = 10000 := by
    rw [distance_eval _ _ _ (by norm_num [c1Line])]
    dsimp only
    rw [c1_scan]
    dsimp only
    exact c1_d0
  rintro ⟨-, -, hmin⟩
  have h1 := hmin 1 (by norm_num [c1Line])
  rw [hfst, c1_d1] at h1
  norm_num at h1

theorem c6_d0 : segment_distance ⟨2, 2⟩ (seg_at c6Line 0) = Real.sqrt 2 := by
  have hseg : seg_at c6Line 0 = ((⟨0, 0⟩ : Point2), (⟨1, 1⟩ : Point2)) := rfl
  have hle : 1 ≤ proj_param ⟨2, 2⟩ ((⟨0, 0⟩ : Point2), (⟨1, 1⟩ : Point2)) := by
    rw [proj_param_mk, le_div_iff₀ (by norm_num)]
    norm_num
  rw [hseg, segment_distance, closest_point_of_one_le _ _ hle, point_distance]
  norm_num

theorem c6_d1 : segment_distance ⟨2, 2⟩ (seg_at c6Line 1) = 0 := by
  have hseg : seg_at c6Line 1 = ((⟨1, 1⟩ : Point2), (⟨2, 2⟩ : Point2)) := rfl
  rw [hseg]
  exact segment_distance_snd _ _

theorem c6_scan : search_scan ⟨2, 2⟩ c6Line = (1, 0 * 2) := by
  have hs0 : search_step ⟨2, 2⟩ c6Line (0, kSearchBoxEdgeLength) 0 =
      (0, Real.sqrt 2 * 2) := by
    have h := search_step_of_lt ⟨2, 2⟩ c6Line (0, kSearchBoxEdgeLength) 0
      (by
        dsimp only
        rw [c6_d0, kSearchBoxEdgeLength_eq]
        have : Real.sqrt 2 < 1000 := (Real.sqrt_lt' (by norm_num)).mpr (by norm_num)
        linarith)
    rw [h, c6_d0]
  have hs1 : search_step ⟨2, 2⟩ c6Line (0, Real.sqrt 2 * 2) 1 = (1, 0 * 2) := by
    have h := search_step_of_lt ⟨2, 2⟩ c6Line (0, Real.sqrt 2 * 2) 1
      (by
        dsimp only
        rw [c6_d1]
        have : 0 < Real.sqrt 2 := Real.sqrt_pos.mpr (by norm_num)
        linarith)
    rw [h, c6_d1]
  rw [search_scan, show c6Line.length - 1 = 2 from rfl,
    show List.range 2 = [0, 1] from rfl, List.foldl_cons, List.foldl_cons, List.foldl_nil,
    hs0, hs1]

/-- C6: for the polyline `[(0,0), (1,1), (2,2)]`, query point `(2,2)` and
mode `kAccumulate`, `distance` returns nearest distance 0 and projection
distance `2·sqrt 2`, the sum of the two segment lengths. -/
theorem distance_accumulate_example :
    distance ⟨2, 2⟩ c6Line ProjectionMode.kAccumulate = (0, 2 * Real.sqrt 2) := by
  rw [distance_eval _ _ _ (by norm_num [c6Line])]
  rw [c6_scan]
  dsimp only
  rw [if_pos rfl, Prod.mk.injEq]
  constructor
  · exact c6_d1
  · rw [accumulate_length_succ, accumulate_length_zero,
      show seg_at c6Line 1 = ((⟨1, 1⟩ : Point2), (⟨2, 2⟩ : Point2)) from rfl,
      closest_point_snd]
    rw [show c6Line.getD 0 ⟨0, 0⟩ = (⟨0, 0⟩ : Point2) from rfl,
      show c6Line.getD 1 ⟨0, 0⟩ = (⟨1, 1⟩ : Point2) from rfl]
    dsimp only
    rw [point_distance, point_distance]
    rw [show ((0 : ℝ) - 1) * ((0 : ℝ) - 1) + ((0 : ℝ) - 1) * ((0 : ℝ) - 1) = 2 by norm_num,
      show ((1 : ℝ) - 2) * ((1 : ℝ) - 2) + ((1 : ℝ) - 2) * ((1 : ℝ) - 2) = 2 by norm_num]
    ring

/-- For a query at vertex `k` of any polyline, if no earlier non-adjacent
segment passes through that vertex, the scan wins at segment `k-1` (or 0 for
the first vertex) and the Accumulate projection distance equals the arc
length from the start to vertex `k`. -/
theorem proj_at_vertex (line : LineString2) (k : ℕ) (h2 : 2 ≤ line.length)
    (hk : k < line.length)
    (hfirst : ∀ j, j + 1 < k →
      segment_distance (line.getD k ⟨0, 0⟩) (seg_at line j) ≠ 0) :
    (distance (line.getD k ⟨0, 0⟩) line ProjectionMode.kAccumulate).2 =
      accumulate_length line k := by
  cases k with
  | zero =>
    have hd0 : segment_distance (line.getD 0 ⟨0, 0⟩) (seg_at line 0) = 0 :=
      segment_distance_fst _ _
    obtain ⟨hidx, hmin, hfmin⟩ := search_scan_spec (line.getD 0 ⟨0, 0⟩) line
      ⟨0, by omega, by rw [hd0]; norm_num⟩
    have hidx0 : (search_scan (line.getD 0 ⟨0, 0⟩) line).1 = 0 := by
      by_contra h
      have hpos := Nat.pos_of_ne_zero h
      have hlt := hfmin 0 hpos
      rw [hd0] at hlt
      exact absurd hlt (not_lt.mpr (segment_distance_nonneg _ _))
    rw [distance_eval _ _ _ h2]
    dsimp only
    rw [if_pos rfl, hidx0, accumulate_length_zero,
      show seg_at line 0 = (line.getD 0 ⟨0, 0⟩, line.getD 1 ⟨0, 0⟩) from rfl]
    dsimp only
    rw [closest_point_fst, point_distance_self]
    norm_num
  | succ m =>
    have hd : segment_distance (line.getD (m + 1) ⟨0, 0⟩) (seg_at line m) = 0 :=
      segment_distance_snd _ _
    obtain ⟨hidx, hmin, hfmin⟩ := search_scan_spec (line.getD (m + 1) ⟨0, 0⟩) line
      ⟨m, by omega, by rw [hd]; norm_num⟩
    have hd0 : segment_distance (line.getD (m + 1) ⟨0, 0⟩)
        (seg_at line (search_scan (line.getD (m + 1) ⟨0, 0⟩) line).1) = 0 := by
      have hle := hmin m (by omega)
      rw [hd] at hle
      exact le_antisymm hle (segment_distance_nonneg _ _)
    have hidxm : (search_scan (line.getD (m + 1) ⟨0, 0⟩) line).1 = m := by
      rcases lt_trichotomy (search_scan (line.getD (m + 1) ⟨0, 0⟩) line).1 m with h | h | h
      · exact absurd hd0 (hfirst _ (by omega))
      · exact h
      · exfalso
        have hlt := hfmin m h
        rw [hd] at hlt
        exact absurd hlt (not_lt.mpr (segment_distance_nonneg _ _))
    rw [distance_eval _ _ _ h2]
    dsimp only
    rw [if_pos rfl, hidxm,
      show seg_at line m = (line.getD m ⟨0, 0⟩, line.getD (m + 1) ⟨0, 0⟩) from rfl]
    dsimp only
    rw [closest_point_snd, accumulate_length_succ]

/-- C7 (amended): for a polyline with at least two points and mode
`kAccumulate`, the projection distance sampled at the vertices is
non-decreasing along the polyline, provided neither sampled vertex lies on an
earlier non-adjacent segment (in particular the polyline does not loop back
onto itself through a sampled vertex). -/
theorem proj_monotone_at_vertices (line : LineString2) (k m : ℕ)
    (h2 : 2 ≤ line.length) (hkm : k ≤ m) (hm : m < line.length)
    (hkfirst : ∀ j, j + 1 < k →
      segment_distance (line.getD k ⟨0, 0⟩) (seg_at line j) ≠ 0)
    (hmfirst : ∀ j, j + 1 < m →
      segment_distance (line.getD m ⟨0, 0⟩) (seg_at line j) ≠ 0) :
    (distance (line.getD k ⟨0, 0⟩) line ProjectionMode.kAccumulate).2 ≤
      (distance (line.getD m ⟨0, 0⟩) line ProjectionMode.kAccumulate).2 := by
  rw [proj_at_vertex line k h2 (by omega) hkfirst,
    proj_at_vertex line m h2 hm hmfirst]
  exact accumulate_length_mono line k m hkm

/-- Witness for C7 (amended) on a simple two-point polyline, from its first
to its second vertex. -/
theorem proj_monotone_at_vertices_witness :
    (distance (([⟨0, 0⟩, ⟨1, 0⟩] : LineString2).getD 0 ⟨0, 0⟩)
        [⟨0, 0⟩, ⟨1, 0⟩] ProjectionMode.kAccumulate).2 ≤
      (distance (([⟨0, 0⟩, ⟨1, 0⟩] : LineString2).getD 1 ⟨0, 0⟩)
        [⟨0, 0⟩, ⟨1, 0⟩] ProjectionMode.kAccumulate).2 :=
  proj_monotone_at_vertices [⟨0, 0⟩, ⟨1, 0⟩] 0 1 (by simp) (by omega) (by simp)
    (fun j hj => absurd hj (by omega)) (fun j hj => absurd hj (by omega))

/-- Once the box size has shrunk to zero, no later segment can strictly beat
it, so the scan state never changes again. -/
theorem search_step_stay_zero (q : Point2) (line : LineString2) (idx i : ℕ) :
    search_step q line (idx, 0 * 2) i = (idx, 0 * 2) := by
  apply search_step_of_not_lt
  dsimp only
  rw [zero_mul]
  exact not_lt.mpr (mul_nonneg (segment_distance_nonneg _ _) (by norm_num))

/-- The Accumulate projection distance at the last vertex of the closed
square loop: the query coincides with vertex 0, segment 0 wins immediately,
and the projection distance is 0. -/
theorem c7_proj_last :
    (distance (c7Line.getD 4 ⟨0, 0⟩) c7Line ProjectionMode.kAccumulate).2 = 0 := by
  rw [show c7Line.getD 4 ⟨0, 0⟩ = (⟨0, 0⟩ : Point2) from rfl]
  have hd0 : segment_distance ⟨0, 0⟩ (seg_at c7Line 0) = 0 := by
    rw [show seg_at c7Line 0 = ((⟨0, 0⟩ : Point2), (⟨10, 0⟩ : Point2)) from rfl]
    exact segment_distance_fst _ _
  have hs0 : search_step ⟨0, 0⟩ c7Line (0, kSearchBoxEdgeLength) 0 = (0, 0 * 2) := by
    have h := search_step_of_lt ⟨0, 0⟩ c7Line (0, kSearchBoxEdgeLength) 0
      (by
        dsimp only
        rw [hd0, kSearchBoxEdgeLength_eq]
        norm_num)
    rw [h, hd0]
  have hscan : search_scan ⟨0, 0⟩ c7Line = (0, 0 * 2) := by
    rw [search_scan, show c7Line.length - 1 = 4 from rfl,
      show List.range 4 = [0, 1, 2, 3] from rfl, List.foldl_cons, List.foldl_cons,
      List.foldl_cons, List.foldl_cons, List.foldl_nil, hs0,
      search_step_stay_zero, search_step_stay_zero, search_step_stay_zero]
  rw [distance_eval _ _ _ (by norm_num [c7Line]), hscan]
  dsimp only
  rw [if_pos rfl, accumulate_length_zero,
    show seg_at c7Line 0 = ((⟨0, 0⟩ : Point2), (⟨10, 0⟩ : Point2)) from rfl]
  dsimp only
  rw [closest_point_fst, point_distance_self]
  norm_num

/-- The Accumulate projection distance at vertex 3 of the closed square
loop: the scan wins at segment 2, and the projection distance is the arc
length 30. -/
theorem c7_proj_v3 :
    (distance (c7Line.getD 3 ⟨0, 0⟩) c7Line ProjectionMode.kAccumulate).2 = 30 := by
  rw [show c7Line.getD 3 ⟨0, 0⟩ = (⟨0, 10⟩ : Point2) from rfl]
  have hd0 : segment_distance ⟨0, 10⟩ (seg_at c7Line 0) = 10 := by
    rw [show seg_at c7Line 0 = ((⟨0, 0⟩ : Point2), (⟨10, 0⟩ : Point2)) from rfl]
    have hle : proj_param ⟨0, 10⟩ ((⟨0, 0⟩ : Point2), (⟨10, 0⟩ : Point2)) ≤ 0 := by
      rw [proj_param_mk]
      norm_num
    rw [segment_distance, closest_point_of_nonpos _ _ hle]
    exact point_distance_eval _ _ 10 (by norm_num) (by norm_num)
  have hd1 : segment_distance ⟨0, 10⟩ (seg_at c7Line 1) = 10 := by
    rw [show seg_at c7Line 1 = ((⟨10, 0⟩ : Point2), (⟨10, 10⟩ : Point2)) from rfl]
    have hle : 1 ≤ proj_param ⟨0, 10⟩ ((⟨10, 0⟩ : Point2), (⟨10, 10⟩ : Point2)) := by
      rw [proj_param_mk, le_div_iff₀ (by norm_num)]
      norm_num
    rw [segment_distance, closest_point_of_one_le _ _ hle]
    exact point_distance_eval _ _ 10 (by norm_num) (by norm_num)
  have hd2 : segment_distance ⟨0, 10⟩ (seg_at c7Line 2) = 0 := by
    rw [show seg_at c7Line 2 = ((⟨10, 10⟩ : Point2), (⟨0, 10⟩ : Point2)) from rfl]
    exact segment_distance_snd _ _
  have hs0 : search_step ⟨0, 10⟩ c7Line (0, kSearchBoxEdgeLength) 0 = (0, 10 * 2) := by
    have h := search_step_of_lt ⟨0, 10⟩ c7Line (0, kSearchBoxEdgeLength) 0
      (by
        dsimp only
        rw [hd0, kSearchBoxEdgeLength_eq]
        norm_num)
    rw [h, hd0]
  have hs1 : search_step ⟨0, 10⟩ c7Line (0, 10 * 2) 1 = (0, 10 * 2) := by
    apply search_step_of_not_lt
    dsimp only
    rw [hd1]
    norm_num
  have hs2 : search_step ⟨0, 10⟩ c7Line (0, 10 * 2) 2 = (2, 0 * 2) := by
    have h := search_step_of_lt ⟨0, 10⟩ c7Line (0, 10 * 2) 2
      (by
        dsimp only
        rw [hd2]
        norm_num)
    rw [h, hd2]
  have hscan : search_scan ⟨0, 10⟩ c7Line = (2, 0 * 2) := by
    rw [search_scan, show c7Line.length - 1 = 4 from rfl,
      show List.range 4 = [0, 1, 2, 3] from rfl, List.foldl_cons, List.foldl_cons,
      List.foldl_cons, List.foldl_cons, List.foldl_nil, hs0, hs1, hs2,
      search_step_stay_zero]
  rw [distance_eval _ _ _ (by norm_num [c7Line]), hscan]
  dsimp only
  rw [if_pos rfl, accumulate_length_succ, accumulate_length_succ, accumulate_length_zero,
    show c7Line.getD 0 ⟨0, 0⟩ = (⟨0, 0⟩ : Point2) from rfl,
    show c7Line.getD 1 ⟨0, 0⟩ = (⟨10, 0⟩ : Point2) from rfl,
    show c7Line.getD 2 ⟨0, 0⟩ = (⟨10, 10⟩ : Point2) from rfl,
    show seg_at c7Line 2 = ((⟨10, 10⟩ : Point2), (⟨0, 10⟩ : Point2)) from rfl]
  dsimp only
  rw [closest_point_snd,
    point_distance_eval (⟨0, 0⟩ : Point2) (⟨10, 0⟩ : Point2) 10 (by norm_num) (by norm_num),
    point_distance_eval (⟨10, 0⟩ : Point2) (⟨10, 10⟩ : Point2) 10 (by norm_num) (by norm_num),
    point_distance_eval (⟨10, 10⟩ : Point2) (⟨0, 10⟩ : Point2) 10 (by norm_num) (by norm_num)]
  norm_num

/-- C7 counterexample: on the closed square loop, the Accumulate projection
distance sampled at vertex 3 is 30 but at vertex 4 (which coincides with the
start) it is 0 — the projection distance is not non-decreasing along the
vertices. -/
theorem proj_not_monotone_cex :
    ¬ ((distance (c7Line.getD 3 ⟨0, 0⟩) c7Line ProjectionMode.kAccumulate).2 ≤
        (distance (c7Line.getD 4 ⟨0, 0⟩) c7Line ProjectionMode.kAccumulate).2) := by
  rw [c7_proj_v3, c7_proj_last]
  norm_num

end SimpleGeom
